import Mathlib

/-!
Verification development for the `get-3gpp-spec` library (`src/lib.rs`).

Strings are modelled as `List Char` (Rust `&str` is a sequence of Unicode
scalar values; its `len()` and slice indices are counted in UTF-8 bytes,
which we account for explicitly with `utf8Size`/`byteLen`).  Fallible Rust
code returning `Result`/`Option` is modelled with `Except`/`Option`.
Code that can panic (byte-slice operations on non-boundaries, `Vec`
indexing, `todo!()`) is modelled in an outer `Option` layer where `none`
marks a panic of the surrounding function.
-/

namespace TGPP

/-! ## Character classes and UTF-8 byte accounting -/

/-- ASCII decimal digit `[0-9]` (codepoints 48–57). -/
def isAsciiDigitCh (c : Char) : Bool :=
  48 ≤ c.toNat && c.toNat ≤ 57

/-- ASCII alphanumeric `[A-Za-z0-9]`, the character class used by the
spec-number regex in `parse_spec_number` (lib.rs line 33). -/
def isAsciiAlnumCh (c : Char) : Bool :=
  (48 ≤ c.toNat && c.toNat ≤ 57) ||
  (65 ≤ c.toNat && c.toNat ≤ 90) ||
  (97 ≤ c.toNat && c.toNat ≤ 122)

/-- Unicode decimal-digit class `\p{Nd}` as matched by `\d` in the Rust
`regex` crate (Unicode mode is the default).  The table lists the
Basic-Multilingual-Plane `Nd` ranges; it contains every character that the
theorems in this file ever test with `isNd`, and all ASCII digits, so no
statement below depends on the omitted supplementary-plane ranges. -/
def isNd (c : Char) : Bool :=
  (0x30 ≤ c.toNat && c.toNat ≤ 0x39) ||      -- ASCII 0-9
  (0x660 ≤ c.toNat && c.toNat ≤ 0x669) ||    -- Arabic-Indic
  (0x6F0 ≤ c.toNat && c.toNat ≤ 0x6F9) ||    -- Extended Arabic-Indic
  (0x7C0 ≤ c.toNat && c.toNat ≤ 0x7C9) ||    -- NKo
  (0x966 ≤ c.toNat && c.toNat ≤ 0x96F) ||    -- Devanagari
  (0x9E6 ≤ c.toNat && c.toNat ≤ 0x9EF) ||    -- Bengali
  (0xA66 ≤ c.toNat && c.toNat ≤ 0xA6F) ||    -- Gurmukhi
  (0xAE6 ≤ c.toNat && c.toNat ≤ 0xAEF) ||    -- Gujarati
  (0xB66 ≤ c.toNat && c.toNat ≤ 0xB6F) ||    -- Oriya
  (0xBE6 ≤ c.toNat && c.toNat ≤ 0xBEF) ||    -- Tamil
  (0xC66 ≤ c.toNat && c.toNat ≤ 0xC6F) ||    -- Telugu
  (0xCE6 ≤ c.toNat && c.toNat ≤ 0xCEF) ||    -- Kannada
  (0xD66 ≤ c.toNat && c.toNat ≤ 0xD6F) ||    -- Malayalam
  (0xE50 ≤ c.toNat && c.toNat ≤ 0xE59) ||    -- Thai
  (0xED0 ≤ c.toNat && c.toNat ≤ 0xED9) ||    -- Lao
  (0xF20 ≤ c.toNat && c.toNat ≤ 0xF29) ||    -- Tibetan
  (0x1040 ≤ c.toNat && c.toNat ≤ 0x1049) ||  -- Myanmar
  (0x17E0 ≤ c.toNat && c.toNat ≤ 0x17E9) ||  -- Khmer
  (0x1810 ≤ c.toNat && c.toNat ≤ 0x1819) ||  -- Mongolian
  (0xFF10 ≤ c.toNat && c.toNat ≤ 0xFF19)     -- Fullwidth

/-- Number of bytes of the UTF-8 encoding of a scalar value. -/
def utf8Size (c : Char) : Nat :=
  if c.toNat ≤ 0x7F then 1
  else if c.toNat ≤ 0x7FF then 2
  else if c.toNat ≤ 0xFFFF then 3
  else 4

/-- UTF-8 byte length of a string, Rust `str::len`. -/
def byteLen (s : List Char) : Nat :=
  s.foldr (fun c acc => utf8Size c + acc) 0

/-- Prefix of `s` occupying exactly `n` UTF-8 bytes.  `none` when `n` is not
a character boundary or exceeds the byte length — the situations where a
Rust byte-slice `&s[..n]` panics. -/
def takeBytes : List Char → Nat → Option (List Char)
  | _, 0 => some []
  | [], _ + 1 => none
  | c :: cs, n + 1 =>
    if utf8Size c ≤ n + 1 then
      (takeBytes cs (n + 1 - utf8Size c)).map (fun t => c :: t)
    else none

/-- Remainder of `s` after the first `n` UTF-8 bytes; `none` exactly when a
Rust byte-slice `&s[n..]` would panic. -/
def dropBytes : List Char → Nat → Option (List Char)
  | s, 0 => some s
  | [], _ + 1 => none
  | c :: cs, n + 1 =>
    if utf8Size c ≤ n + 1 then dropBytes cs (n + 1 - utf8Size c)
    else none

/-- Byte-indexed slice `s.get(i..j)` (Rust `str::get`): `none` instead of a
panic when an index is out of bounds or not a boundary. -/
def byteSlice (s : List Char) (i j : Nat) : Option (List Char) :=
  match dropBytes s i with
  | none => none
  | some t => takeBytes t (j - i)

/-! ## SpecNumber parser (lib.rs lines 9–52) -/

/-- Parsed spec number, `struct SpecNumber { series: String, number: String }`. -/
structure SpecNumber where
  series : List Char
  number : List Char
deriving DecidableEq

/-- Tail of the regex `^\d{2}\.?[A-Za-z0-9]+$` after the two leading
digits: an optional literal dot, then one or more ASCII alphanumerics.
The dot can only be matched by `\.` since `.` is not in `[A-Za-z0-9]`. -/
def tailRe : List Char → Bool
  | [] => false
  | c :: r =>
    if c = '.' then !r.isEmpty && r.all isAsciiAlnumCh
    else (c :: r).all isAsciiAlnumCh

/-- Whole-string match of `^\d{2}\.?[A-Za-z0-9]+$` (lib.rs line 33); `\d`
is the Unicode class `Nd`. -/
def specRe : List Char → Bool
  | c1 :: c2 :: rest => isNd c1 && isNd c2 && tailRe rest
  | _ => false

/-- Error message of `parse_spec_number` (lib.rs lines 36–39).  The Rust
format string wraps the offending input in single quotation marks; the
quotation marks are omitted here. -/
def specNumErrMsg (spec : List Char) : String :=
  "invalid spec_number " ++ spec.asString ++
    ": must start with two digits, optionally a dot, then at least one alphanumeric character"

/-- Model of `parse_spec_number` (lib.rs lines 32–52).  After the regex
check the code takes the byte slices `&spec[0..2]` and `&spec[2..]` and
strips a leading dot from the latter.  The outer `Option` is `none` when a
byte slice panics (byte index 2 inside a multi-byte character). -/
def parse_spec_number (spec : List Char) : Option (Except String SpecNumber) :=
  if specRe spec then
    match takeBytes spec 2, dropBytes spec 2 with
    | some series, some rest0 =>
      let number := if rest0.head? = some '.' then rest0.tail else rest0
      some (.ok ⟨series, number⟩)
    | _, _ => none
  else
    some (.error (specNumErrMsg spec))

/-- True when the modelled call returned `Err` (no panic). -/
def isErrResult : Option (Except String SpecNumber) → Bool
  | some (.error _) => true
  | _ => false

/-! ## Version extractor (lib.rs lines 79–85 and 144–172) -/

/-- `struct Version { major: u32, minor: u32, editorial: u32 }`; the parser
only constructs components below 100, far from `u32` overflow. -/
structure Version where
  major : Nat
  minor : Nat
  editorial : Nat
deriving DecidableEq

/-- Split a path on `/` (Unix separator), keeping empty components. -/
def splitSlash : List Char → List (List Char)
  | [] => [[]]
  | c :: cs =>
    let r := splitSlash cs
    if c = '/' then [] :: r
    else
      match r with
      | [] => [[c]]
      | h :: t => (c :: h) :: t

/-- Rust `Path::file_name`: last normal component after dropping empty and
`.` components; `none` when the path is empty, a root, or ends in `..`. -/
def fileNameOfPath (p : List Char) : Option (List Char) :=
  let comps := (splitSlash p).filter (fun comp => !(comp.isEmpty || comp = ['.']))
  match comps.getLast? with
  | none => none
  | some c => if c = ['.', '.'] then none else some c

/-- Characters before the last `.` of a file name: `some` prefix when a
dot exists, `none` otherwise. -/
def stemAux : List Char → Option (List Char)
  | [] => none
  | c :: cs =>
    match stemAux cs with
    | some s => some (c :: s)
    | none => if c = '.' then some [] else none

/-- Rust extension split applied by `Path::file_stem`: the portion before
the last `.`, except that a leading dot (hidden-file name) does not count
as an extension separator. -/
def stemOf (name : List Char) : List Char :=
  match name with
  | [] => []
  | c :: cs =>
    if c = '.' then
      match stemAux cs with
      | some s => c :: s
      | none => name
    else
      match stemAux name with
      | some s => s
      | none => name

/-- `Path::new(filename).file_stem()` (lib.rs line 145).  `to_str()` always
succeeds on a path built from a `&str`, so it is not modelled. -/
def fileStem (p : List Char) : Option (List Char) :=
  (fileNameOfPath p).map stemOf

/-- Last segment of `stem.split('-')` (lib.rs lines 146–147); `split`
always yields at least one segment, so `parts.last()` never fails. -/
def lastSeg (s : List Char) : List Char :=
  (s.reverse.takeWhile (fun c => c ≠ '-')).reverse

/-- Helper for `trim_end_matches(".zip")` on the reversed string: removing
every trailing `".zip"` is removing every leading `"piz."` of the reverse. -/
def trimZipRev : List Char → List Char
  | 'p' :: 'i' :: 'z' :: '.' :: rest => trimZipRev rest
  | l => l

/-- Rust `str::trim_end_matches(".zip")` (lib.rs line 147): repeatedly
removes the suffix `".zip"`. -/
def trimEndZip (s : List Char) : List Char :=
  (trimZipRev s.reverse).reverse

/-- Candidate version token chosen by `parse_version` (lib.rs lines
145–147): file stem, last `-`-segment, then trailing `".zip"` removal. -/
def rustToken (filename : List Char) : Option (List Char) :=
  match fileStem filename with
  | none => none
  | some stem => some (trimEndZip (lastSeg stem))

/-- The closure `to_digit` of `parse_version` (lib.rs lines 151–158):
base-36 value of `[0-9a-zA-Z]`, case-insensitive. -/
def to_digit (c : Char) : Option Nat :=
  if 48 ≤ c.toNat && c.toNat ≤ 57 then some (c.toNat - 48)         -- '0'..='9'
  else if 97 ≤ c.toNat && c.toNat ≤ 122 then some (c.toNat - 97 + 10)  -- 'a'..='z'
  else if 65 ≤ c.toNat && c.toNat ≤ 90 then some (c.toNat - 65 + 10)   -- 'A'..='Z'
  else none

/-- Length-3 branch of `parse_version` (lib.rs lines 149–164): the token's
characters are collected into a vector and indexed at 0, 1, 2 in order,
with `?` short-circuiting after each `to_digit`.  The outer `Option` is
`none` for an out-of-bounds vector index (a Rust panic). -/
def decode3R (ver : List Char) : Option (Option Version) :=
  match ver[0]? with
  | none => none
  | some c0 =>
    match to_digit c0 with
    | none => some none
    | some ma =>
      match ver[1]? with
      | none => none
      | some c1 =>
        match to_digit c1 with
        | none => some none
        | some mi =>
          match ver[2]? with
          | none => none
          | some c2 =>
            match to_digit c2 with
            | none => some none
            | some ed => some (some ⟨ma, mi, ed⟩)

/-- Digit run parsed as a Rust unsigned integer with exclusive bound
`bound` (`u32`: `2^32`, `u8`: `256`): fails on an empty run, any non-ASCII
digit, or overflow. -/
def parseDigitsB (bound : Nat) (s : List Char) : Option Nat :=
  if !s.isEmpty && s.all isAsciiDigitCh then
    let v := s.foldl (fun acc c => 10 * acc + (c.toNat - 48)) 0
    if v < bound then some v else none
  else none

/-- Rust `str::parse` for an unsigned integer type: an optional leading
`+` sign followed by one or more ASCII digits. -/
def parseUIntB (bound : Nat) (s : List Char) : Option Nat :=
  match s with
  | [] => none
  | c :: rest => if c = '+' then parseDigitsB bound rest else parseDigitsB bound (c :: rest)

/-- `str::parse::<u32>()`. -/
def parseU32 (s : List Char) : Option Nat := parseUIntB 4294967296 s

/-- `str::parse::<u8>()`. -/
def parseU8 (s : List Char) : Option Nat := parseUIntB 256 s

/-- Length-6 branch of `parse_version` (lib.rs lines 165–169): byte slices
`0..2`, `2..4`, `4..6` each parsed with `str::parse::<u32>()`; `str::get`
returns `None` (not a panic) on a non-boundary. -/
def decode6R (ver : List Char) : Option Version :=
  match byteSlice ver 0 2 with
  | none => none
  | some g1 =>
    match parseU32 g1 with
    | none => none
    | some ma =>
      match byteSlice ver 2 4 with
      | none => none
      | some g2 =>
        match parseU32 g2 with
        | none => none
        | some mi =>
          match byteSlice ver 4 6 with
          | none => none
          | some g3 =>
            match parseU32 g3 with
            | none => none
            | some ed => some ⟨ma, mi, ed⟩

/-- Model of `parse_version` (lib.rs lines 144–172).  The match on
`ver_str.len()` dispatches on the UTF-8 byte length.  Outer `none` marks a
panic (only conceivable in the length-3 branch's vector indexing). -/
def parse_version (filename : List Char) : Option (Option Version) :=
  match rustToken filename with
  | none => some none
  | some ver =>
    if byteLen ver = 3 then decode3R ver
    else if byteLen ver = 6 then some (decode6R ver)
    else some none

/-! ## Spec-side definitions for the version extractor claims -/

/-- Base-36 digit value as the specification words it: `0-9` then
`a-z`/`A-Z` case-insensitively with values 10–35; everything outside
`[0-9a-zA-Z]` is invalid. -/
def base36Val (c : Char) : Option Nat :=
  if 48 ≤ c.toNat && c.toNat ≤ 57 then some (c.toNat - 48)
  else if 65 ≤ c.toNat && c.toNat ≤ 90 then some (c.toNat - 55)
  else if 97 ≤ c.toNat && c.toNat ≤ 122 then some (c.toNat - 87)
  else none

/-- Length-3 decoding as the specification words it: three characters,
each a base-36 digit, assigned to major, minor, editorial. -/
def specDecode3 : List Char → Option Version
  | [a, b, c] =>
    match base36Val a with
    | none => none
    | some ma =>
      match base36Val b with
      | none => none
      | some mi =>
        match base36Val c with
        | none => none
        | some ed => some ⟨ma, mi, ed⟩
  | _ => none

/-- Two-character group value as the amended claim words it: two ASCII
digits (00–99), or a `+` sign followed by one ASCII digit — the leading
plus accepted by Rust's unsigned-integer parser. -/
def specGroupVal : List Char → Option Nat
  | [a, b] =>
    if isAsciiDigitCh a && isAsciiDigitCh b then some (10 * (a.toNat - 48) + (b.toNat - 48))
    else if a = '+' && isAsciiDigitCh b then some (b.toNat - 48)
    else none
  | _ => none

/-- Length-6 decoding as the amended claim words it: the three consecutive
two-byte groups, each a `specGroupVal`. -/
def specDecode6A (t : List Char) : Option Version :=
  match byteSlice t 0 2 with
  | none => none
  | some g1 =>
    match specGroupVal g1 with
    | none => none
    | some ma =>
      match byteSlice t 2 4 with
      | none => none
      | some g2 =>
        match specGroupVal g2 with
        | none => none
        | some mi =>
          match byteSlice t 4 6 with
          | none => none
          | some g3 =>
            match specGroupVal g3 with
            | none => none
            | some ed => some ⟨ma, mi, ed⟩

/-- Length-6 decoding exactly as claim C7 originally words it: three
consecutive two-character groups, each two base-10 digits (00–99); any
non-digit in a group invalidates the token. -/
def specDecode6Orig : List Char → Option Version
  | [a, b, c, d, e, f] =>
    if [a, b, c, d, e, f].all isAsciiDigitCh then
      some ⟨10 * (a.toNat - 48) + (b.toNat - 48),
            10 * (c.toNat - 48) + (d.toNat - 48),
            10 * (e.toNat - 48) + (f.toNat - 48)⟩
    else none
  | _ => none

/-- Text after the last `/`: the claim's "filename without its directory
path". -/
def afterLastSlash (s : List Char) : List Char :=
  (s.reverse.takeWhile (fun c => c ≠ '/')).reverse

/-- Strip the literal suffix `".zip"` case-sensitively and only once, as
claim C6 originally words it. -/
def stripZipOnce (s : List Char) : List Char :=
  if 4 ≤ s.length ∧ s.drop (s.length - 4) = ['.', 'z', 'i', 'p'] then
    s.take (s.length - 4)
  else s

/-- Version extraction exactly as claim C6 originally words it: remove the
directory path, strip `".zip"` once, split on `-`, take the last segment,
then dispatch on length 3 (base-36 triplet) or 6 (digit pairs); any other
length yields no result. -/
def specC6Extract (filename : List Char) : Option Version :=
  let tok := lastSeg (stripZipOnce (afterLastSlash filename))
  if tok.length = 3 then specDecode3 tok
  else if tok.length = 6 then specDecode6Orig tok
  else none

/-! ## Month and DateFilter (lib.rs lines 54–142) -/

/-- `enum Month` with explicit numeric values 1..=12. -/
inductive Month where
  | january | february | march | april | may | june
  | july | august | september | october | november | december
deriving DecidableEq

/-- Numeric value of a month, the `repr(u8)` discriminant. -/
def monthVal : Month → Nat
  | .january => 1
  | .february => 2
  | .march => 3
  | .april => 4
  | .may => 5
  | .june => 6
  | .july => 7
  | .august => 8
  | .september => 9
  | .october => 10
  | .november => 11
  | .december => 12

/-- `Month::try_from` (lib.rs lines 95–115): strict range-checked
conversion, explicit error for values outside 1..=12. -/
def Month.try_from (value : Nat) : Except String Month :=
  if value = 1 then .ok .january
  else if value = 2 then .ok .february
  else if value = 3 then .ok .march
  else if value = 4 then .ok .april
  else if value = 5 then .ok .may
  else if value = 6 then .ok .june
  else if value = 7 then .ok .july
  else if value = 8 then .ok .august
  else if value = 9 then .ok .september
  else if value = 10 then .ok .october
  else if value = 11 then .ok .november
  else if value = 12 then .ok .december
  else .error ("invalid month value: " ++ toString value ++ " (expected 1..=12)")

/-- `struct DateFilter { year: u32, month: Month }`. -/
structure DateFilter where
  year : Nat
  month : Month
deriving DecidableEq

/-- Captures of the regex `^(\d{4})-(\d{2})$` (lib.rs line 123): the year
digits and the month digits; `\d` is the Unicode class `Nd`. -/
def dfCaps (s : List Char) : Option (List Char × List Char) :=
  match s with
  | [a, b, c, d, hy, e, f] =>
    if isNd a && isNd b && isNd c && isNd d && hy = '-' && isNd e && isNd f then
      some ([a, b, c, d], [e, f])
    else none
  | _ => none

/-- Error message for an overall-malformed date string (lib.rs line 126).
The Rust format string wraps the input in single quotation marks, omitted
here. -/
def dateFmtErrMsg (s : List Char) : String :=
  "invalid date " ++ s.asString ++ ": must be YYYY-MM"

/-- `DateFilter::from_str` (lib.rs lines 117–142): regex match, year
parsed as `u32`, month parsed as `u8` then converted via
`Month::try_from`.  The capture-group accesses (`caps.get(1)`,
`caps.get(2)`) always succeed after a match and are folded into
`dfCaps`. -/
def DateFilter.from_str (s : List Char) : Except String DateFilter :=
  match dfCaps s with
  | none => .error (dateFmtErrMsg s)
  | some (ys, ms) =>
    match parseU32 ys with
    | none => .error "invalid year: invalid digit found in string"
    | some year =>
      match parseU8 ms with
      | none => .error "invalid month: invalid digit found in string"
      | some monthNum =>
        match Month.try_from monthNum with
        | .error e => .error e
        | .ok m => .ok ⟨year, m⟩

/-! ## Header locator (lib.rs lines 271–294) -/

/-- ASCII lowercasing of one character.  `str::to_lowercase` applies the
full Unicode mapping; on every character this file ever scans the two
agree, and the locator claims are stated over this map. -/
def lowerCh (c : Char) : Char :=
  if 65 ≤ c.toNat ∧ c.toNat ≤ 90 then Char.ofNat (c.toNat + 32) else c

/-- Flattened cell text after `to_lowercase` (lib.rs line 281). -/
def lcText (t : List Char) : List Char := t.map lowerCh

/-- Whether `hay` starts with `pat`. -/
def startsWithCh : List Char → List Char → Bool
  | [], _ => true
  | _ :: _, [] => false
  | p :: ps, h :: hs => p == h && startsWithCh ps hs

/-- Rust `str::contains` for a literal pattern: some suffix of the
haystack starts with the pattern. -/
def hasSub (pat : List Char) : List Char → Bool
  | [] => pat.isEmpty
  | c :: rest => startsWithCh pat (c :: rest) || hasSub pat rest

/-- The literal pattern `"name"`. -/
def nameSub : List Char := ['n', 'a', 'm', 'e']

/-- The literal pattern `"date"`. -/
def dateSub : List Char := ['d', 'a', 't', 'e']

/-- The header loop of `find_header_indexes` (lib.rs lines 280–288): scan
the header cells in document order with a running index, recording the
first index whose lowercased text contains `"name"` and the first whose
text contains `"date"`. -/
def headerScan : List (List Char) → Nat → Option Nat → Option Nat → Option Nat × Option Nat
  | [], _, nAcc, dAcc => (nAcc, dAcc)
  | t :: ts, i, nAcc, dAcc =>
    let txt := lcText t
    headerScan ts (i + 1)
      (if nAcc = none ∧ hasSub nameSub txt = true then some i else nAcc)
      (if dAcc = none ∧ hasSub dateSub txt = true then some i else dAcc)

/-- Single-pattern version of the header scan, used to reason about the
two accumulators of `headerScan` independently. -/
def scanFirst (pat : List Char) : List (List Char) → Nat → Option Nat → Option Nat
  | [], _, acc => acc
  | t :: ts, i, acc =>
    scanFirst pat ts (i + 1)
      (if acc = none ∧ hasSub pat (lcText t) = true then some i else acc)

/-- Error message of `find_header_indexes` (lib.rs line 292).  The Rust
string wraps `name` and `date` in single quotation marks, omitted here. -/
def hdrErrMsg : String := "failed to find name and date columns"

/-- Model of `find_header_indexes` (lib.rs lines 273–294).  The document
side (selector `thead > tr > th`, text flattening) is the external HTML
library; its output — the flattened texts of the header cells in document
order — is the input here. -/
def find_header_indexes (headers : List (List Char)) : Except String (Nat × Nat) :=
  match headerScan headers 0 none none with
  | (some n, some d) => .ok (n, d)
  | _ => .error hdrErrMsg

/-! ## Listing date parsing (lib.rs line 242) -/

/-- Calendar date and time as extracted by chrono's `Datelike` accessors;
`year` is restricted to the non-negative range the four-digit format
produces. -/
structure Date where
  year : Nat
  month : Nat
  day : Nat
  hour : Nat
  minute : Nat
deriving DecidableEq

/-- Whitespace for Rust `str::trim` (`char::is_whitespace`); ASCII
whitespace plus NO-BREAK SPACE, the characters that can occur in the
listing's date cells. -/
def isWsCh (c : Char) : Bool :=
  c == ' ' || c == '\t' || c == '\n' || c == '\r' || c.toNat == 0xA0

/-- Rust `str::trim`. -/
def trimWs (s : List Char) : List Char :=
  ((s.dropWhile isWsCh).reverse.dropWhile isWsCh).reverse

/-- Consume up to `n` leading ASCII digits, returning them and the rest. -/
def takeDigitsN : Nat → List Char → List Char × List Char
  | 0, s => ([], s)
  | _ + 1, [] => ([], [])
  | n + 1, c :: cs =>
    if isAsciiDigitCh c then
      let p := takeDigitsN n cs
      (c :: p.1, p.2)
    else ([], c :: cs)

/-- Base-10 value of a digit run. -/
def digitsVal (s : List Char) : Nat :=
  s.foldl (fun acc c => 10 * acc + (c.toNat - 48)) 0

/-- Gregorian leap-year rule, as validated by chrono. -/
def isLeapYear (y : Nat) : Bool :=
  (y % 4 == 0 && y % 100 != 0) || y % 400 == 0

/-- Days in a month, as validated by chrono's date construction. -/
def daysInMonth (y m : Nat) : Nat :=
  if m = 2 then (if isLeapYear y then 29 else 28)
  else if m = 4 ∨ m = 6 ∨ m = 9 ∨ m = 11 then 30
  else 31

/-- Model of `chrono::NaiveDateTime::parse_from_str(s, "%Y/%m/%d %-H:%M")`
(lib.rs line 242): four-digit year, slash, one-or-two-digit month, slash,
day, space, hour (the `-` flag disables padding; parsing is identical),
colon, minute; the whole string must be consumed; the field values must
form a real calendar date and time.  Seconds are absent from the format
and default to zero, so they are not carried. -/
def parseListingDate (s : List Char) : Option Date :=
  let (yds, s1) := takeDigitsN 4 s
  if yds.length = 4 then
    match s1 with
    | '/' :: s2 =>
      let (mds, s3) := takeDigitsN 2 s2
      if mds.isEmpty then none
      else
        match s3 with
        | '/' :: s4 =>
          let (dds, s5) := takeDigitsN 2 s4
          if dds.isEmpty then none
          else
            match s5 with
            | ' ' :: s6 =>
              let (hds, s7) := takeDigitsN 2 s6
              if hds.isEmpty then none
              else
                match s7 with
                | ':' :: s8 =>
                  let (nds, s9) := takeDigitsN 2 s8
                  if nds.isEmpty || !s9.isEmpty then none
                  else
                    let y := digitsVal yds
                    let mo := digitsVal mds
                    let d := digitsVal dds
                    let h := digitsVal hds
                    let mi := digitsVal nds
                    if 1 ≤ mo ∧ mo ≤ 12 ∧ 1 ≤ d ∧ d ≤ daysInMonth y mo ∧ h < 24 ∧ mi < 60 then
                      some ⟨y, mo, d, h, mi⟩
                    else none
                | _ => none
            | _ => none
        | _ => none
    | _ => none
  else none

/-! ## Listing pipeline (lib.rs lines 177–269) -/

/-- An `a[href]` element of a name cell: its `href` attribute and its
flattened link text (the filename). -/
structure Anchor where
  href : List Char
  text : List Char
deriving DecidableEq

/-- One `td` cell of a body row: its `a[href]` descendants in document
order and its flattened text. -/
structure Cell where
  anchors : List Anchor
  text : List Char
deriving DecidableEq

/-- A parsed listing page: the flattened texts of the `thead > tr > th`
cells and the `tbody > tr` rows, each a list of `td` cells.  The HTTP
fetch and HTML parsing that produce it (lib.rs lines 182–211) are the
external collaborators of spec section 1. -/
structure Page where
  headers : List (List Char)
  rows : List (List Cell)

/-- `struct SpecItem`; the `DateTime<Utc>` field is represented by its
calendar components, which is what the pipeline compares. -/
structure SpecItem where
  version : Version
  date : Date
  url : List Char
deriving DecidableEq

/-- The release filter of lib.rs lines 252–256: `true` when the row is to
be skipped. -/
def releaseSkip (release : Option Nat) (v : Version) : Bool :=
  match release with
  | some rel => v.major != rel
  | none => false

/-- The date filter of lib.rs lines 259–263: `true` when the row passes.
In the source this check sits after the unconditional `todo!()` at line
258 and is unreachable; it is executed only by `listLoopIntended`. -/
def dateFilterPass (df : Option DateFilter) (d : Date) : Bool :=
  match df with
  | none => true
  | some f => d.year == f.year && d.month == monthVal f.month

/-- The row loop of `list` (lib.rs lines 222–266) as executed.  Per row:
column-count guard, cell indexing, first anchor of the name cell, date
parse of the trimmed date text, version extraction, release filter — and
then the unconditional `todo!()` at line 258, modelled as the panic result
`none`.  The date filter and `specs.push` (lines 259–265) are dead code
behind the `todo!()`; `date_filter` is threaded through untouched. -/
def listLoop (nIdx dIdx : Nat) (release : Option Nat) (df : Option DateFilter) :
    List (List Cell) → List SpecItem → Option (List SpecItem)
  | [], acc => some acc
  | row :: rest, acc =>
    if row.length ≤ max nIdx dIdx then listLoop nIdx dIdx release df rest acc
    else
      match row[nIdx]?, row[dIdx]? with
      | some nameCell, some dateCell =>
        match nameCell.anchors.head? with
        | none => listLoop nIdx dIdx release df rest acc
        | some anchor =>
          match parseListingDate (trimWs dateCell.text) with
          | none => listLoop nIdx dIdx release df rest acc
          | some _date =>
            match parse_version anchor.text with
            | none => none
            | some none => listLoop nIdx dIdx release df rest acc
            | some (some version) =>
              if releaseSkip release version then listLoop nIdx dIdx release df rest acc
              else none
      | _, _ => none

/-- The row loop with the `todo!()` of line 258 removed: the date filter
of lines 259–263 runs and surviving rows are pushed (line 265) in document
order.  This is the loop the specification describes. -/
def listLoopIntended (nIdx dIdx : Nat) (release : Option Nat) (df : Option DateFilter) :
    List (List Cell) → List SpecItem → Option (List SpecItem)
  | [], acc => some acc
  | row :: rest, acc =>
    if row.length ≤ max nIdx dIdx then listLoopIntended nIdx dIdx release df rest acc
    else
      match row[nIdx]?, row[dIdx]? with
      | some nameCell, some dateCell =>
        match nameCell.anchors.head? with
        | none => listLoopIntended nIdx dIdx release df rest acc
        | some anchor =>
          match parseListingDate (trimWs dateCell.text) with
          | none => listLoopIntended nIdx dIdx release df rest acc
          | some date =>
            match parse_version anchor.text with
            | none => none
            | some none => listLoopIntended nIdx dIdx release df rest acc
            | some (some version) =>
              if releaseSkip release version then listLoopIntended nIdx dIdx release df rest acc
              else if dateFilterPass df date then
                listLoopIntended nIdx dIdx release df rest
                  (acc ++ [⟨version, date, anchor.href⟩])
              else listLoopIntended nIdx dIdx release df rest acc
      | _, _ => none

/-- The parsing-and-filtering phase of `list` (lib.rs lines 211–268), from
the parsed page on: locate the header columns, run the row loop, wrap the
collected items in `Ok`.  Outer `none` marks a panic. -/
def list (page : Page) (release : Option Nat) (df : Option DateFilter) :
    Option (Except String (List SpecItem)) :=
  match find_header_indexes page.headers with
  | .error e => some (.error e)
  | .ok (nIdx, dIdx) =>
    match listLoop nIdx dIdx release df page.rows [] with
    | none => none
    | some items => some (.ok items)

/-- `list` with the intended loop (the `todo!()` removed), used to state
what the code was specified to return. -/
def listIntended (page : Page) (release : Option Nat) (df : Option DateFilter) :
    Option (Except String (List SpecItem)) :=
  match find_header_indexes page.headers with
  | .error e => some (.error e)
  | .ok (nIdx, dIdx) =>
    match listLoopIntended nIdx dIdx release df page.rows [] with
    | none => none
    | some items => some (.ok items)

/-- Listing page for the round-trip scenario of claim C1: a name and a
date column, one decorative row with an unparsable date, and one
well-formed row matching all (absent) filters. -/
def pageC1 : Page where
  headers := [String.toList "sort by name", String.toList "sort by date"]
  rows :=
    [ [⟨[⟨String.toList "https://x/spec-123.zip", String.toList "spec-123.zip"⟩], []⟩,
       ⟨[], String.toList "bad date"⟩],
      [⟨[⟨String.toList "https://x/spec-300.zip", String.toList "spec-300.zip"⟩], []⟩,
       ⟨[], String.toList "2023/7/5 3:04"⟩] ]

/-- Listing page with a single well-formed row, used to show the abort
ahead of the date filter is reached even when a date filter is present. -/
def pageC2 : Page where
  headers := [String.toList "sort by name", String.toList "sort by date"]
  rows :=
    [ [⟨[⟨String.toList "https://x/x-400.zip", String.toList "x-400.zip"⟩], []⟩,
       ⟨[], String.toList "2024/1/2 3:04"⟩] ]

/-- Header-cell texts of the locator test (lib.rs lines 350–368),
abbreviated as in spec section 8. -/
def demoHeaders : List (List Char) :=
  [[], [], String.toList "sort by name", String.toList "sort by date", String.toList "sort by size"]

/-! ## Helper lemmas: characters and byte slices -/

theorem utf8Size_pos (c : Char) : 0 < utf8Size c := by
  unfold utf8Size
  split
  · omega
  · split
    · omega
    · split <;> omega

theorem utf8Size_eq_one (c : Char) (h : c.toNat ≤ 127) : utf8Size c = 1 := by
  unfold utf8Size
  rw [if_pos h]

theorem digit_toNat_le (c : Char) (h : isAsciiDigitCh c = true) : c.toNat ≤ 127 := by
  simp only [isAsciiDigitCh, Bool.and_eq_true, decide_eq_true_eq] at h
  omega

theorem alnum_toNat_le (c : Char) (h : isAsciiAlnumCh c = true) : c.toNat ≤ 127 := by
  simp only [isAsciiAlnumCh, Bool.or_eq_true, Bool.and_eq_true, decide_eq_true_eq] at h
  omega

theorem nd_of_digit (c : Char) (h : isAsciiDigitCh c = true) : isNd c = true := by
  simp only [isAsciiDigitCh, Bool.and_eq_true, decide_eq_true_eq] at h
  simp only [isNd, Bool.or_eq_true, Bool.and_eq_true, decide_eq_true_eq]
  omega

theorem takeBytes_two (a b : Char) (l : List Char)
    (ha : a.toNat ≤ 127) (hb : b.toNat ≤ 127) :
    takeBytes (a :: b :: l) 2 = some [a, b] := by
  simp [takeBytes, utf8Size_eq_one a ha, utf8Size_eq_one b hb]

theorem dropBytes_two (a b : Char) (l : List Char)
    (ha : a.toNat ≤ 127) (hb : b.toNat ≤ 127) :
    dropBytes (a :: b :: l) 2 = some l := by
  simp [dropBytes, utf8Size_eq_one a ha, utf8Size_eq_one b hb]

/-! ## Claims C3, C4, C5: the SpecNumber parser -/

/-- Claim C3 (code_bug evidence): `parse_spec_number` is claimed never to
panic, but on the input `"२३a"` (two Devanagari digits, three UTF-8 bytes
each, accepted by the Unicode-aware `\d{2}` of the regex) the byte slice
`&spec[0..2]` falls inside the first character and panics, modelled by the
result `none`. -/
theorem claim_C3 : parse_spec_number (String.toList "२३a") = none := by rfl

/-- Claim C4 (code_bug evidence): on the input `"٢٣a"` (two Arabic-Indic
digits, two UTF-8 bytes each) the parser accepts and returns a
`SpecNumber` whose `series` is the single non-ASCII character `٢` — not
two ASCII digits — and whose `number` contains a non-alphanumeric
character, violating the data-model invariant. -/
theorem claim_C4 :
    parse_spec_number (String.toList "٢٣a") = some (.ok ⟨['٢'], ['٣', 'a']⟩) ∧
    ¬ (['٢'].length = 2 ∧ (['٢'] : List Char).all isAsciiDigitCh = true) ∧
    (['٣', 'a'] : List Char).all isAsciiAlnumCh = false :=
  ⟨rfl, by decide, by decide⟩

/-- Claim C5: for every two-ASCII-digit series `S` and non-empty ASCII
alphanumeric `N`, `parse_spec_number` accepts both `S ++ N` and
`S ++ "." ++ N` yielding `{series := S, number := N}`, and the inputs
`"2a"`, `".23a"`, `"ab23"`, `"23."` and `""` are all rejected with an
error. -/
theorem claim_C5 (S N : List Char) (hS : S.length = 2)
    (hSd : S.all isAsciiDigitCh = true) (hN : N ≠ [])
    (hNa : N.all isAsciiAlnumCh = true) :
    parse_spec_number (S ++ N) = some (.ok ⟨S, N⟩) ∧
    parse_spec_number (S ++ '.' :: N) = some (.ok ⟨S, N⟩) ∧
    isErrResult (parse_spec_number (String.toList "2a")) = true ∧
    isErrResult (parse_spec_number (String.toList ".23a")) = true ∧
    isErrResult (parse_spec_number (String.toList "ab23")) = true ∧
    isErrResult (parse_spec_number (String.toList "23.")) = true ∧
    isErrResult (parse_spec_number (String.toList "")) = true := by
  obtain ⟨a, b, rfl⟩ := List.length_eq_two.mp hS
  obtain ⟨c, r, rfl⟩ : ∃ c r, N = c :: r := by
    cases N with
    | nil => exact absurd rfl hN
    | cons c r => exact ⟨c, r, rfl⟩
  simp only [List.all_cons, List.all_nil, Bool.and_eq_true, and_true] at hSd hNa
  have ha127 : a.toNat ≤ 127 := digit_toNat_le a hSd.1
  have hb127 : b.toNat ≤ 127 := digit_toNat_le b hSd.2
  have hcdot : c ≠ '.' := by
    intro h
    rw [h] at hNa
    exact absurd hNa.1 (by decide)
  refine ⟨?_, ?_, rfl, rfl, rfl, rfl, rfl⟩
  · have hre : specRe (a :: b :: c :: r) = true := by
      simp [specRe, tailRe, if_neg hcdot, nd_of_digit a hSd.1, nd_of_digit b hSd.2,
        hNa.1, hNa.2]
    have ht := takeBytes_two a b (c :: r) ha127 hb127
    have hd := dropBytes_two a b (c :: r) ha127 hb127
    simp [parse_spec_number, hre, ht, hd, hcdot]
  · have hre : specRe (a :: b :: '.' :: c :: r) = true := by
      simp [specRe, tailRe, nd_of_digit a hSd.1, nd_of_digit b hSd.2, hNa.1, hNa.2]
    have ht := takeBytes_two a b ('.' :: c :: r) ha127 hb127
    have hd := dropBytes_two a b ('.' :: c :: r) ha127 hb127
    simp [parse_spec_number, hre, ht, hd]

/-- Concrete instantiation of `claim_C5` at `S = "23"`, `N = "a"`. -/
theorem claim_C5_witness :
    (['2', '3'] : List Char).length = 2 ∧
    (['2', '3'] : List Char).all isAsciiDigitCh = true ∧
    (['2', '3'] : List Char) ++ ['a'] = ['2', '3', 'a'] ∧
    parse_spec_number (['2', '3'] ++ ['a']) = some (.ok ⟨['2', '3'], ['a']⟩) :=
  ⟨by decide, by decide, by decide,
    (claim_C5 ['2', '3'] ['a'] (by decide) (by decide) (by decide) (by decide)).1⟩

/-! ## Helper lemmas: version extractor -/

theorem byteLen_cons (c : Char) (l : List Char) :
    byteLen (c :: l) = utf8Size c + byteLen l := rfl

theorem byteLen_ge_length (l : List Char) : l.length ≤ byteLen l := by
  induction l with
  | nil => simp [byteLen]
  | cons c cs ih =>
    have := utf8Size_pos c
    rw [byteLen_cons]
    simp only [List.length_cons]
    omega

theorem toNat_big_of_multibyte (c : Char) (h : utf8Size c ≠ 1) : 128 ≤ c.toNat := by
  by_contra hc
  exact h (utf8Size_eq_one c (by omega))

theorem to_digit_none_of_big (c : Char) (h : 128 ≤ c.toNat) : to_digit c = none := by
  unfold to_digit
  rw [if_neg (by simp only [Bool.and_eq_true, decide_eq_true_eq, not_and]; omega),
    if_neg (by simp only [Bool.and_eq_true, decide_eq_true_eq, not_and]; omega),
    if_neg (by simp only [Bool.and_eq_true, decide_eq_true_eq, not_and]; omega)]

theorem to_digit_some_le (c : Char) (v : Nat) (h : to_digit c = some v) :
    c.toNat ≤ 127 := by
  by_contra hc
  rw [to_digit_none_of_big c (by omega)] at h
  exact Option.noConfusion h

theorem to_digit_eq_base36 (c : Char) : to_digit c = base36Val c := by
  unfold to_digit base36Val
  split_ifs <;>
    simp only [Bool.and_eq_true, decide_eq_true_eq] at * <;>
    first
      | rfl
      | omega
      | (congr 1; omega)

/-- On a token of byte length 3 the length-3 branch of `parse_version`
computes exactly the base-36 decoding of the claim, and in particular
never reaches an out-of-bounds vector index: a missing character can only
arise from a multi-byte (hence non-alphanumeric) character sitting at an
earlier index, where `to_digit` already fails. -/
theorem decode3R_eq_spec (t : List Char) (h : byteLen t = 3) :
    decode3R t = some (specDecode3 t) := by
  match t with
  | [] => simp [byteLen] at h
  | [c0] =>
    have hbig : 128 ≤ c0.toNat := by
      apply toNat_big_of_multibyte
      intro h1
      rw [byteLen_cons, h1] at h
      simp [byteLen] at h
    simp [decode3R, specDecode3, to_digit_none_of_big c0 hbig]
  | [c0, c1] =>
    rcases h0 : to_digit c0 with _ | v0
    · simp [decode3R, specDecode3, h0]
    · have hs0 : utf8Size c0 = 1 := utf8Size_eq_one c0 (to_digit_some_le c0 v0 h0)
      have hbig : 128 ≤ c1.toNat := by
        apply toNat_big_of_multibyte
        intro h1
        rw [byteLen_cons, byteLen_cons, hs0, h1] at h
        simp [byteLen] at h
      simp [decode3R, specDecode3, h0, to_digit_none_of_big c1 hbig]
  | c0 :: c1 :: c2 :: rest =>
    have hr : rest = [] := by
      have hlen := byteLen_ge_length (c0 :: c1 :: c2 :: rest)
      cases rest with
      | nil => rfl
      | cons x xs =>
        rw [h] at hlen
        simp only [List.length_cons] at hlen
        omega
    subst hr
    rcases h0 : base36Val c0 with _ | v0
    · simp [decode3R, specDecode3, to_digit_eq_base36, h0]
    · rcases h1 : base36Val c1 with _ | v1
      · simp [decode3R, specDecode3, to_digit_eq_base36, h0, h1]
      · rcases h2 : base36Val c2 with _ | v2
        · simp [decode3R, specDecode3, to_digit_eq_base36, h0, h1, h2]
        · simp [decode3R, specDecode3, to_digit_eq_base36, h0, h1, h2]

theorem takeBytes_byteLen (s : List Char) : ∀ (n : Nat) (t : List Char),
    takeBytes s n = some t → byteLen t = n := by
  induction s with
  | nil =>
    intro n t h
    cases n with
    | zero => simp only [takeBytes, Option.some.injEq] at h; subst h; rfl
    | succ m => exact absurd h (by simp [takeBytes])
  | cons c cs ih =>
    intro n t h
    cases n with
    | zero => simp only [takeBytes, Option.some.injEq] at h; subst h; rfl
    | succ m =>
      simp only [takeBytes] at h
      split at h
      · rcases Option.map_eq_some'.mp h with ⟨t', ht', rfl⟩
        have hlen := ih _ _ ht'
        rw [byteLen_cons, hlen]
        omega
      · exact absurd h (by simp)

theorem byteSlice_byteLen (s : List Char) (i j : Nat) (g : List Char)
    (h : byteSlice s i j = some g) : byteLen g = j - i := by
  unfold byteSlice at h
  rcases hd : dropBytes s i with _ | t
  · rw [hd] at h
    exact absurd h (by simp)
  · rw [hd] at h
    exact takeBytes_byteLen t (j - i) g h

theorem parseDigitsB_single (bound : Nat) (b : Char) (hbound : 100 ≤ bound) :
    parseDigitsB bound [b] =
      if isAsciiDigitCh b then some (b.toNat - 48) else none := by
  by_cases hbd : isAsciiDigitCh b = true
  · have hb : 48 ≤ b.toNat ∧ b.toNat ≤ 57 := by
      simpa [isAsciiDigitCh] using hbd
    simp only [parseDigitsB, List.isEmpty_cons, Bool.not_false, List.all_cons,
      List.all_nil, hbd, Bool.and_true, Bool.true_and, if_true,
      List.foldl_cons, List.foldl_nil]
    rw [if_pos (by omega)]
    congr 1
    omega
  · simp [parseDigitsB, hbd]

theorem parseDigitsB_pair (bound : Nat) (a b : Char) (hbound : 100 ≤ bound) :
    parseDigitsB bound [a, b] =
      if isAsciiDigitCh a && isAsciiDigitCh b then
        some (10 * (a.toNat - 48) + (b.toNat - 48))
      else none := by
  by_cases had : isAsciiDigitCh a = true
  · by_cases hbd : isAsciiDigitCh b = true
    · have ha : 48 ≤ a.toNat ∧ a.toNat ≤ 57 := by
        simpa [isAsciiDigitCh] using had
      have hb : 48 ≤ b.toNat ∧ b.toNat ≤ 57 := by
        simpa [isAsciiDigitCh] using hbd
      simp only [parseDigitsB, List.isEmpty_cons, Bool.not_false, List.all_cons,
        List.all_nil, had, hbd, Bool.and_true, Bool.true_and, if_true,
        List.foldl_cons, List.foldl_nil]
      rw [if_pos (by omega)]
      congr 1
      omega
    · simp [parseDigitsB, had, hbd]
  · simp [parseDigitsB, had]

/-- On a two-byte group, Rust `u32` parsing agrees with the amended
claim's group rule: two ASCII digits, or a leading plus sign followed by
one digit. -/
theorem parseU32_eq_groupVal (g : List Char) (h : byteLen g = 2) :
    parseU32 g = specGroupVal g := by
  have hplusd : isAsciiDigitCh '+' = false := by decide
  match g with
  | [] => simp [byteLen] at h
  | [c] =>
    have hbig : 128 ≤ c.toNat := by
      apply toNat_big_of_multibyte
      intro h1
      rw [byteLen_cons, h1] at h
      simp [byteLen] at h
    have hplus : c ≠ '+' := by
      intro he
      rw [he] at hbig
      exact absurd hbig (by decide)
    have hdig : ¬(isAsciiDigitCh c = true) := by
      simp only [isAsciiDigitCh, Bool.and_eq_true, decide_eq_true_eq, not_and]
      omega
    simp [parseU32, parseUIntB, hplus, parseDigitsB, specGroupVal, hdig]
  | [a, b] =>
    by_cases hap : a = '+'
    · subst hap
      have hu : parseU32 ['+', b] = parseDigitsB 4294967296 [b] := by
        simp [parseU32, parseUIntB]
      rw [hu, parseDigitsB_single _ b (by norm_num)]
      by_cases hbd : isAsciiDigitCh b = true
      · simp [specGroupVal, hbd, hplusd]
      · simp [specGroupVal, hbd, hplusd]
    · have hu : parseU32 [a, b] = parseDigitsB 4294967296 [a, b] := by
        simp [parseU32, parseUIntB, hap]
      rw [hu, parseDigitsB_pair _ a b (by norm_num)]
      by_cases had : isAsciiDigitCh a = true
      · by_cases hbd : isAsciiDigitCh b = true
        · simp [specGroupVal, had, hbd]
        · simp [specGroupVal, had, hbd, hap]
      · simp [specGroupVal, had, hap]
  | a :: b :: c :: rest =>
    have hlen := byteLen_ge_length (a :: b :: c :: rest)
    rw [h] at hlen
    simp only [List.length_cons] at hlen
    omega

/-- The length-6 branch of `parse_version` computes exactly the amended
claim's decoding, on every token. -/
theorem decode6R_eq_specA (t : List Char) : decode6R t = specDecode6A t := by
  unfold decode6R specDecode6A
  rcases h1 : byteSlice t 0 2 with _ | g1
  · rfl
  · dsimp only
    rw [parseU32_eq_groupVal g1 (byteSlice_byteLen t 0 2 g1 h1)]
    rcases specGroupVal g1 with _ | v1
    · rfl
    · dsimp only
      rcases h2 : byteSlice t 2 4 with _ | g2
      · rfl
      · dsimp only
        rw [parseU32_eq_groupVal g2 (byteSlice_byteLen t 2 4 g2 h2)]
        rcases specGroupVal g2 with _ | v2
        · rfl
        · dsimp only
          rcases h3 : byteSlice t 4 6 with _ | g3
          · rfl
          · dsimp only
            rw [parseU32_eq_groupVal g3 (byteSlice_byteLen t 4 6 g3 h3)]

/-! ## Claims C6, C7, C10: the version extractor -/

/-- Claim C6 counterexample: on `"spec-123.txt"` the claim's algorithm
(strip only a literal `".zip"` once, then split) produces the token
`"123.txt"` of length 7 and therefore demands `None`, but the code's
`file_stem` removes the `.txt` extension and `parse_version` returns a
version. -/
theorem claim_C6_cex :
    specC6Extract (String.toList "spec-123.txt") = none ∧
    lastSeg (stripZipOnce (afterLastSlash (String.toList "spec-123.txt"))) =
      String.toList "123.txt" ∧
    (String.toList "123.txt").length ≠ 3 ∧
    (String.toList "123.txt").length ≠ 6 ∧
    parse_version (String.toList "spec-123.txt") = some (some ⟨1, 2, 3⟩) :=
  ⟨rfl, rfl, by decide, by decide, rfl⟩

/-- Claim C6 as amended: the candidate token is the filename's final path
component with its final `.`-extension removed (whatever the extension,
per Rust `file_stem`), split on `-`, last segment, then every trailing
`".zip"` removed; a token whose byte length is neither 3 nor 6 yields
`None` (absence, not an error).  The concrete conjuncts exercise each
pipeline stage: lengths 4 and 5, directory removal, non-zip and
upper-case extension removal, and repeated `".zip"` trimming. -/
theorem claim_C6 (fn t : List Char) (h : rustToken fn = some t)
    (h3 : byteLen t ≠ 3) (h6 : byteLen t ≠ 6) :
    parse_version fn = some none ∧
    parse_version (String.toList "x-1234") = some none ∧
    parse_version (String.toList "x-12345") = some none ∧
    parse_version (String.toList "dir/sub/a-123") = some (some ⟨1, 2, 3⟩) ∧
    parse_version (String.toList "b-045.doc") = some (some ⟨0, 4, 5⟩) ∧
    parse_version (String.toList "c-200.ZIP") = some (some ⟨2, 0, 0⟩) ∧
    parse_version (String.toList "d-300.zip.zip") = some (some ⟨3, 0, 0⟩) := by
  refine ⟨?_, rfl, rfl, rfl, rfl, rfl, rfl⟩
  simp [parse_version, h, h3, h6]

/-- Concrete instantiation of `claim_C6` at `"x-1234"` (token length 4). -/
theorem claim_C6_witness :
    rustToken (String.toList "x-1234") = some (String.toList "1234") ∧
    byteLen (String.toList "1234") ≠ 3 ∧
    byteLen (String.toList "1234") ≠ 6 ∧
    parse_version (String.toList "x-1234") = some none :=
  ⟨rfl, by decide, by decide,
    (claim_C6 (String.toList "x-1234") (String.toList "1234") rfl (by decide)
      (by decide)).1⟩

/-- Claim C7 counterexample: the token `"+1+2+3"` has byte length 6 and a
non-digit (`+`) in every two-character group, so the claim demands `None`;
but Rust's `u32` parser accepts a leading plus sign and the code returns
`Some {major 1, minor 2, editorial 3}`. -/
theorem claim_C7_cex :
    parse_version (String.toList "+1+2+3") = some (some ⟨1, 2, 3⟩) ∧
    rustToken (String.toList "+1+2+3") = some (String.toList "+1+2+3") ∧
    byteLen (String.toList "+1+2+3") = 6 ∧
    isAsciiDigitCh '+' = false ∧
    specDecode6Orig (String.toList "+1+2+3") = none :=
  ⟨rfl, rfl, by decide, by decide, rfl⟩

/-- Claim C7 as amended: a length-3 token is decoded as the base-36
triplet exactly as claimed; a token of byte length 6 is split into three
consecutive two-byte groups, each parsed by Rust unsigned-integer parsing
— two ASCII digits (00–99), or a plus sign followed by one digit — and
any group of any other form makes extraction return `None`. -/
theorem claim_C7 (fn t : List Char) (h : rustToken fn = some t) :
    (byteLen t = 3 → parse_version fn = some (specDecode3 t)) ∧
    (byteLen t = 6 → parse_version fn = some (specDecode6A t)) := by
  constructor
  · intro h3
    simp [parse_version, h, h3, decode3R_eq_spec t h3]
  · intro h6
    have h36 : byteLen t ≠ 3 := by omega
    simp [parse_version, h, h36, h6, decode6R_eq_specA t]

/-- Concrete instantiation of `claim_C7` at `"m-x05.zip"` (token `"x05"`,
base-36 decoding) and at the byte-length-6 token of `"n-010203.zip"`. -/
theorem claim_C7_witness :
    rustToken (String.toList "m-x05.zip") = some (String.toList "x05") ∧
    byteLen (String.toList "x05") = 3 ∧
    parse_version (String.toList "m-x05.zip") = some (specDecode3 (String.toList "x05")) ∧
    rustToken (String.toList "n-010203.zip") = some (String.toList "010203") ∧
    byteLen (String.toList "010203") = 6 ∧
    parse_version (String.toList "n-010203.zip") =
      some (specDecode6A (String.toList "010203")) :=
  ⟨rfl, by decide,
    (claim_C7 (String.toList "m-x05.zip") (String.toList "x05") rfl).1 (by decide),
    rfl, by decide,
    (claim_C7 (String.toList "n-010203.zip") (String.toList "010203") rfl).2 (by decide)⟩

/-- Claim C10: `parse_version` is total — for every input string the
result is `Some` or `None` and never a panic (outer `some`), including
filenames with multi-byte characters where the byte length 3 differs from
the character count; the concrete conjunct exercises exactly that case
(token `"é5"`: three bytes, two characters). -/
theorem claim_C10 :
    (∀ fn : List Char, ∃ r : Option Version, parse_version fn = some r) ∧
    parse_version (String.toList "u-é5") = some none := by
  constructor
  · intro fn
    rcases h : rustToken fn with _ | t
    · exact ⟨none, by simp [parse_version, h]⟩
    · by_cases h3 : byteLen t = 3
      · exact ⟨specDecode3 t, by simp [parse_version, h, h3, decode3R_eq_spec t h3]⟩
      · by_cases h6 : byteLen t = 6
        · exact ⟨decode6R t, by simp [parse_version, h, h3, h6]⟩
        · exact ⟨none, by simp [parse_version, h, h3, h6]⟩
  · rfl

/-! ## Helper lemmas: DateFilter parser -/

theorem nd_ge48 (c : Char) (h : isNd c = true) : 48 ≤ c.toNat := by
  simp only [isNd, Bool.or_eq_true, Bool.and_eq_true, decide_eq_true_eq] at h
  omega

theorem ne_plus_of_nd (c : Char) (h : isNd c = true) : c ≠ '+' := by
  intro he
  have h48 := nd_ge48 c h
  rw [he] at h48
  exact absurd h48 (by decide)

theorem parseUIntB_nonplus (bound : Nat) (c : Char) (rest : List Char) (h : c ≠ '+') :
    parseUIntB bound (c :: rest) = parseDigitsB bound (c :: rest) := by
  simp [parseUIntB, h]

theorem parseDigitsB_all_digits (bound : Nat) (s : List Char) (v : Nat)
    (h : parseDigitsB bound s = some v) : s.all isAsciiDigitCh = true := by
  unfold parseDigitsB at h
  by_cases hc : (!s.isEmpty && s.all isAsciiDigitCh) = true
  · have hc2 : (!s.isEmpty) = true ∧ s.all isAsciiDigitCh = true := by simpa using hc
    exact hc2.2
  · rw [if_neg hc] at h
    exact absurd h (by simp)

theorem parseDigitsB_quad_ok (bound : Nat) (a b c d : Char) (hbound : 10000 ≤ bound)
    (ha : isAsciiDigitCh a = true) (hb : isAsciiDigitCh b = true)
    (hc : isAsciiDigitCh c = true) (hd : isAsciiDigitCh d = true) :
    ∃ v, parseDigitsB bound [a, b, c, d] = some v := by
  have ha2 : 48 ≤ a.toNat ∧ a.toNat ≤ 57 := by simpa [isAsciiDigitCh] using ha
  have hb2 : 48 ≤ b.toNat ∧ b.toNat ≤ 57 := by simpa [isAsciiDigitCh] using hb
  have hc2 : 48 ≤ c.toNat ∧ c.toNat ≤ 57 := by simpa [isAsciiDigitCh] using hc
  have hd2 : 48 ≤ d.toNat ∧ d.toNat ≤ 57 := by simpa [isAsciiDigitCh] using hd
  refine ⟨10 * (10 * (10 * (10 * 0 + (a.toNat - 48)) + (b.toNat - 48)) + (c.toNat - 48)) +
    (d.toNat - 48), ?_⟩
  simp only [parseDigitsB, List.isEmpty_cons, Bool.not_false, List.all_cons, List.all_nil,
    ha, hb, hc, hd, Bool.and_true, Bool.true_and, if_true, List.foldl_cons, List.foldl_nil]
  rw [if_pos (by omega)]

theorem month_try_from_of_ge13 (n : Nat) (h : 13 ≤ n) :
    Month.try_from n =
      .error ("invalid month value: " ++ toString n ++ " (expected 1..=12)") := by
  obtain ⟨h1, h2, h3, h4, h5, h6, h7, h8, h9, h10, h11, h12⟩ :
      n ≠ 1 ∧ n ≠ 2 ∧ n ≠ 3 ∧ n ≠ 4 ∧ n ≠ 5 ∧ n ≠ 6 ∧ n ≠ 7 ∧ n ≠ 8 ∧ n ≠ 9 ∧
        n ≠ 10 ∧ n ≠ 11 ∧ n ≠ 12 := by omega
  simp only [Month.try_from, h1, h2, h3, h4, h5, h6, h7, h8, h9, h10, h11, h12,
    if_false]

theorem month_try_from_ok_iff (n : Nat) :
    (∃ m, Month.try_from n = .ok m) ↔ 1 ≤ n ∧ n ≤ 12 := by
  by_cases h13 : 13 ≤ n
  · rw [month_try_from_of_ge13 n h13]
    constructor
    · rintro ⟨m, hm⟩
      exact Except.noConfusion hm
    · rintro ⟨h1, h2⟩
      omega
  · have h12 : n ≤ 12 := by omega
    interval_cases n <;> simp [Month.try_from]

theorem dfCaps_some (s ys ms : List Char) (h : dfCaps s = some (ys, ms)) :
    ∃ a b c d e f : Char, s = [a, b, c, d, '-', e, f] ∧ ys = [a, b, c, d] ∧
      ms = [e, f] ∧ isNd a = true ∧ isNd e = true := by
  unfold dfCaps at h
  split at h
  next a b c d hy e f =>
    split at h
    next hcond =>
      simp only [Bool.and_eq_true, decide_eq_true_eq] at hcond
      obtain ⟨⟨⟨⟨⟨⟨hna, _⟩, _⟩, _⟩, hdash⟩, hne⟩, _⟩ := hcond
      subst hdash
      simp only [Option.some.injEq, Prod.mk.injEq] at h
      exact ⟨a, b, c, d, e, f, rfl, h.1.symm, h.2.symm, hna, hne⟩
    next => exact absurd h (by simp)
  next => exact absurd h (by simp)

/-! ## Claim C8: the DateFilter parser -/

/-- Claim C8: `DateFilter` parsing accepts exactly the strings of four
ASCII digits, a hyphen, and two ASCII digits whose month value lies in
1..=12 (out-of-range months are rejected, never clamped); `"2023-07"`
succeeds with year 2023 and month July, `"2023-13"` fails with the
month-specific error, `"23-07"` fails with the malformed-string error,
and the two error messages are distinct. -/
theorem claim_C8 :
    DateFilter.from_str (String.toList "2023-07") = .ok ⟨2023, Month.july⟩ ∧
    DateFilter.from_str (String.toList "2023-13") =
      .error "invalid month value: 13 (expected 1..=12)" ∧
    DateFilter.from_str (String.toList "23-07") =
      .error (dateFmtErrMsg (String.toList "23-07")) ∧
    "invalid month value: 13 (expected 1..=12)" ≠ dateFmtErrMsg (String.toList "23-07") ∧
    (∀ s : List Char,
      (∃ df, DateFilter.from_str s = .ok df) ↔
        ∃ a b c d e f : Char, s = [a, b, c, d, '-', e, f] ∧
          isAsciiDigitCh a = true ∧ isAsciiDigitCh b = true ∧
          isAsciiDigitCh c = true ∧ isAsciiDigitCh d = true ∧
          isAsciiDigitCh e = true ∧ isAsciiDigitCh f = true ∧
          1 ≤ 10 * (e.toNat - 48) + (f.toNat - 48) ∧
          10 * (e.toNat - 48) + (f.toNat - 48) ≤ 12) := by
  refine ⟨rfl, rfl, rfl, by decide, ?_⟩
  intro s
  constructor
  · rintro ⟨df, hdf⟩
    unfold DateFilter.from_str at hdf
    rcases hcap : dfCaps s with _ | ⟨ys, ms⟩
    · simp only [hcap] at hdf
      exact absurd hdf (by simp)
    · simp only [hcap] at hdf
      obtain ⟨a, b, c, d, e, f, rfl, rfl, rfl, hna, hne⟩ := dfCaps_some s ys ms hcap
      rcases hy : parseU32 [a, b, c, d] with _ | y
      · simp only [hy] at hdf
        exact absurd hdf (by simp)
      · simp only [hy] at hdf
        rcases hm : parseU8 [e, f] with _ | mv
        · simp only [hm] at hdf
          exact absurd hdf (by simp)
        · simp only [hm] at hdf
          rcases hmm : Month.try_from mv with em | m
          · simp only [hmm] at hdf
            exact absurd hdf (by simp)
          · unfold parseU32 at hy
            rw [parseUIntB_nonplus _ a _ (ne_plus_of_nd a hna)] at hy
            have hyd := parseDigitsB_all_digits _ _ _ hy
            simp only [List.all_cons, List.all_nil, Bool.and_eq_true, and_true] at hyd
            unfold parseU8 at hm
            rw [parseUIntB_nonplus _ e _ (ne_plus_of_nd e hne)] at hm
            have hmd := parseDigitsB_all_digits _ _ _ hm
            simp only [List.all_cons, List.all_nil, Bool.and_eq_true, and_true] at hmd
            have hmval : mv = 10 * (e.toNat - 48) + (f.toNat - 48) := by
              rw [parseDigitsB_pair _ e f (by norm_num)] at hm
              rw [if_pos (by simp [hmd.1, hmd.2])] at hm
              exact (Option.some.injEq _ _ ▸ hm).symm
            have hrange : 1 ≤ mv ∧ mv ≤ 12 :=
              (month_try_from_ok_iff mv).mp ⟨m, hmm⟩
            exact ⟨a, b, c, d, e, f, rfl, hyd.1, hyd.2.1, hyd.2.2.1, hyd.2.2.2,
              hmd.1, hmd.2, by omega, by omega⟩
  · rintro ⟨a, b, c, d, e, f, rfl, ha, hb, hc, hd, he, hf, hm1, hm2⟩
    unfold DateFilter.from_str
    have hcap : dfCaps [a, b, c, d, '-', e, f] = some ([a, b, c, d], [e, f]) := by
      simp [dfCaps, nd_of_digit a ha, nd_of_digit b hb, nd_of_digit c hc,
        nd_of_digit d hd, nd_of_digit e he, nd_of_digit f hf]
    have hane : a ≠ '+' := by
      intro hh
      rw [hh] at ha
      exact absurd ha (by decide)
    have hene : e ≠ '+' := by
      intro hh
      rw [hh] at he
      exact absurd he (by decide)
    obtain ⟨y, hy⟩ := parseDigitsB_quad_ok 4294967296 a b c d (by norm_num) ha hb hc hd
    have hy32 : parseU32 [a, b, c, d] = some y := by
      unfold parseU32
      rw [parseUIntB_nonplus _ a _ hane]
      exact hy
    have hm8 : parseU8 [e, f] = some (10 * (e.toNat - 48) + (f.toNat - 48)) := by
      unfold parseU8
      rw [parseUIntB_nonplus _ e _ hene, parseDigitsB_pair _ e f (by norm_num),
        if_pos (by simp [he, hf])]
    obtain ⟨m, hmok⟩ := (month_try_from_ok_iff (10 * (e.toNat - 48) + (f.toNat - 48))).mpr
      ⟨hm1, hm2⟩
    simp only [hcap, hy32, hm8, hmok]
    exact ⟨⟨y, m⟩, rfl⟩

/-! ## Helper lemmas: header locator -/

theorem headerScan_eq_pair (ts : List (List Char)) : ∀ (i : Nat) (nA dA : Option Nat),
    headerScan ts i nA dA = (scanFirst nameSub ts i nA, scanFirst dateSub ts i dA) := by
  induction ts with
  | nil => intro i nA dA; rfl
  | cons t ts ih =>
    intro i nA dA
    simp only [headerScan, scanFirst]
    exact ih _ _ _

theorem scanFirst_cons (pat t : List Char) (ts : List (List Char)) (i : Nat)
    (acc : Option Nat) :
    scanFirst pat (t :: ts) i acc =
      scanFirst pat ts (i + 1)
        (if acc = none ∧ hasSub pat (lcText t) = true then some i else acc) := rfl

theorem scanFirst_some_acc (pat : List Char) (ts : List (List Char)) :
    ∀ (i k : Nat), scanFirst pat ts i (some k) = some k := by
  induction ts with
  | nil => intro i k; rfl
  | cons t ts ih =>
    intro i k
    rw [scanFirst_cons, if_neg (by simp)]
    exact ih _ _

theorem scanFirst_none_iff (pat : List Char) (ts : List (List Char)) : ∀ (i : Nat),
    scanFirst pat ts i none = none ↔ ∀ t ∈ ts, hasSub pat (lcText t) = false := by
  induction ts with
  | nil => intro i; simp [scanFirst]
  | cons t ts ih =>
    intro i
    by_cases hh : hasSub pat (lcText t) = true
    · rw [scanFirst_cons, if_pos (And.intro rfl hh), scanFirst_some_acc]
      simp [List.forall_mem_cons, hh]
    · have hf : hasSub pat (lcText t) = false := by
        cases hhh : hasSub pat (lcText t)
        · rfl
        · exact absurd hhh hh
      have hcond : ¬((none : Option Nat) = none ∧ hasSub pat (lcText t) = true) := by
        rw [hf]
        simp
      rw [scanFirst_cons, if_neg hcond, ih]
      simp [List.forall_mem_cons, hf]

theorem scanFirst_some_spec (pat : List Char) (ts : List (List Char)) : ∀ (i m : Nat),
    scanFirst pat ts i none = some m →
    ∃ j t, ts[j]? = some t ∧ m = i + j ∧ hasSub pat (lcText t) = true ∧
      ∀ j' t', j' < j → ts[j']? = some t' → hasSub pat (lcText t') = false := by
  induction ts with
  | nil =>
    intro i m h
    exact absurd h (by simp [scanFirst])
  | cons t ts ih =>
    intro i m h
    by_cases hh : hasSub pat (lcText t) = true
    · rw [scanFirst_cons, if_pos (And.intro rfl hh), scanFirst_some_acc,
        Option.some.injEq] at h
      refine ⟨0, t, by simp, by omega, hh, ?_⟩
      intro j' t' hj' _
      omega
    · have hf : hasSub pat (lcText t) = false := by
        cases hhh : hasSub pat (lcText t)
        · rfl
        · exact absurd hhh hh
      have hcond : ¬((none : Option Nat) = none ∧ hasSub pat (lcText t) = true) := by
        rw [hf]
        simp
      rw [scanFirst_cons, if_neg hcond] at h
      obtain ⟨j, u, hu, hm, hhu, hprev⟩ := ih (i + 1) m h
      refine ⟨j + 1, u, by simpa using hu, by omega, hhu, ?_⟩
      intro j' t' hj' ht'
      cases j' with
      | zero =>
        have hte : t = t' := by simpa using ht'
        rw [← hte]
        exact hf
      | succ j'' =>
        exact hprev j'' t' (by omega) (by simpa using ht')

/-! ## Claim C9: the header locator -/

/-- Claim C9: the header locator returns exactly the zero-based index of
the first header cell whose lowercased flattened text contains `"name"`
and the first containing `"date"`; it fails with the header-not-found
error exactly when one of the substrings occurs in no header cell; on the
test page's header cells it returns `(2, 3)`. -/
theorem claim_C9 :
    (∀ (headers : List (List Char)) (n d : Nat),
      find_header_indexes headers = .ok (n, d) →
        (∃ t, headers[n]? = some t ∧ hasSub nameSub (lcText t) = true ∧
          ∀ j t', j < n → headers[j]? = some t' → hasSub nameSub (lcText t') = false) ∧
        (∃ t, headers[d]? = some t ∧ hasSub dateSub (lcText t) = true ∧
          ∀ j t', j < d → headers[j]? = some t' → hasSub dateSub (lcText t') = false)) ∧
    (∀ headers : List (List Char),
      (∃ e, find_header_indexes headers = .error e) ↔
        ((∀ t ∈ headers, hasSub nameSub (lcText t) = false) ∨
         (∀ t ∈ headers, hasSub dateSub (lcText t) = false))) ∧
    find_header_indexes demoHeaders = .ok (2, 3) := by
  refine ⟨?_, ?_, rfl⟩
  · intro headers n d h
    unfold find_header_indexes at h
    rw [headerScan_eq_pair] at h
    rcases hn : scanFirst nameSub headers 0 none with _ | n'
    · simp only [hn] at h
      exact Except.noConfusion h
    · rcases hd : scanFirst dateSub headers 0 none with _ | d'
      · simp only [hn, hd] at h
        exact Except.noConfusion h
      · simp only [hn, hd, Except.ok.injEq, Prod.mk.injEq] at h
        obtain ⟨rfl, rfl⟩ := h
        constructor
        · obtain ⟨j, t, hjt, hm, hht, hprev⟩ := scanFirst_some_spec nameSub headers 0 n' hn
          have hj : j = n' := by omega
          subst hj
          exact ⟨t, hjt, hht, hprev⟩
        · obtain ⟨j, t, hjt, hm, hht, hprev⟩ := scanFirst_some_spec dateSub headers 0 d' hd
          have hj : j = d' := by omega
          subst hj
          exact ⟨t, hjt, hht, hprev⟩
  · intro headers
    unfold find_header_indexes
    rw [headerScan_eq_pair]
    rcases hn : scanFirst nameSub headers 0 none with _ | n'
    · simp only [hn]
      constructor
      · intro _
        exact Or.inl ((scanFirst_none_iff nameSub headers 0).mp hn)
      · intro _
        exact ⟨hdrErrMsg, rfl⟩
    · rcases hd : scanFirst dateSub headers 0 none with _ | d'
      · simp only [hn, hd]
        constructor
        · intro _
          exact Or.inr ((scanFirst_none_iff dateSub headers 0).mp hd)
        · intro _
          exact ⟨hdrErrMsg, rfl⟩
      · simp only [hn, hd]
        constructor
        · rintro ⟨e, he⟩
          exact absurd he (by simp)
        · rintro (hall | hall)
          · rw [(scanFirst_none_iff nameSub headers 0).mpr hall] at hn
            exact Option.noConfusion hn
          · rw [(scanFirst_none_iff dateSub headers 0).mpr hall] at hd
            exact Option.noConfusion hd

/-- Concrete instantiation of `claim_C9` at the test header cells. -/
theorem claim_C9_witness :
    (∃ t, demoHeaders[2]? = some t ∧ hasSub nameSub (lcText t) = true ∧
      ∀ j t', j < 2 → demoHeaders[j]? = some t' → hasSub nameSub (lcText t') = false) ∧
    (∃ t, demoHeaders[3]? = some t ∧ hasSub dateSub (lcText t) = true ∧
      ∀ j t', j < 3 → demoHeaders[j]? = some t' → hasSub dateSub (lcText t') = false) :=
  claim_C9.1 demoHeaders 2 3 rfl

/-! ## Claims C1, C2: the listing pipeline -/

/-- The row loop's result does not depend on the date filter: the
unconditional abort (`todo!()`, line 258) sits ahead of the date-filter
check, so `df` is dead in every branch. -/
theorem listLoop_df_indep (nIdx dIdx : Nat) (release : Option Nat)
    (df df' : Option DateFilter) (rows : List (List Cell)) :
    ∀ acc, listLoop nIdx dIdx release df rows acc =
      listLoop nIdx dIdx release df' rows acc := by
  induction rows with
  | nil => intro acc; rfl
  | cons row rest ih =>
    intro acc
    simp only [listLoop]
    split
    · exact ih acc
    · split <;> try rfl
      split
      · exact ih acc
      · split
        · exact ih acc
        · split
          · rfl
          · exact ih acc
          · split
            · exact ih acc
            · rfl

/-- Claim C2: in every execution of `list` the date-filter predicate is
never applied — the result is independent of the `date_filter` argument —
and the abort ahead of the date-filter check is reached: on a page with
one well-formed row, `list` aborts (`none`) even when a date filter
matching the row is supplied. -/
theorem claim_C2 :
    (∀ (page : Page) (release : Option Nat) (df : Option DateFilter),
      list page release df = list page release none) ∧
    list pageC2 none (some ⟨2024, Month.january⟩) = none := by
  constructor
  · intro page release df
    unfold list
    rcases find_header_indexes page.headers with e | ⟨nIdx, dIdx⟩
    · rfl
    · dsimp only
      rw [listLoop_df_indep nIdx dIdx release df none page.rows []]
  · rfl

/-- Claim C1 (code_bug evidence): on a well-formed listing page with one
row matching all (absent) filters and one row with a malformed date, the
claim demands that `list` return exactly the surviving row's `SpecItem`;
the code instead reaches the unconditional `todo!()` at line 258 and
panics (`none`).  `listIntended` — the same loop with the `todo!()`
removed, which is what the specification describes — returns exactly that
row, with the malformed-date row excluded without error. -/
theorem claim_C1 :
    list pageC1 none none = none ∧
    listIntended pageC1 none none =
      some (.ok [⟨⟨3, 0, 0⟩, ⟨2023, 7, 5, 3, 4⟩,
        String.toList "https://x/spec-300.zip"⟩]) :=
  ⟨rfl, rfl⟩

end TGPP
